import Mathlib

/-!
A shallow embedding of the `log` package's text-rendering engine.

Go strings are modelled as `List Char` (a Go `for _, r := range str` loop
iterates over runes, which correspond to Lean `Char`s).  Styling (`lipgloss`
`Render` transforms) is modelled in no-color mode, where, per the spec, every
style transform is the identity; the styled strings therefore appear verbatim.
-/

namespace GoLog

/-- Model of Go `unicode.IsPrint`.  Exact on ASCII (control characters below
`0x20`, `DEL`, and the C1 range `0x80`–`0x9F` are not printable; `0x20`–`0x7E`
are); above that range the Unicode category tables are approximated by
treating `NBSP`/`SHY` as non-printable and everything else as printable.
No claim in this development depends on the approximated region. -/
def isPrint (r : Char) : Bool :=
  if r.toNat < 0x20 then false
  else if r.toNat < 0x7F then true
  else if r.toNat ≤ 0x9F then false
  else if r.toNat == 0xA0 || r.toNat == 0xAD then false
  else true

/-- Function needsEscaping from the source: true iff some rune is non-printable or a
double quote. -/
def needsEscaping (str : List Char) : Bool :=
  str.any (fun b => !isPrint b || b == '"')

/-- The digits of the `lowerhex` constant from the source. -/
def hexDigit (n : Nat) : Char :=
  "0123456789abcdef".toList.getD n '0'

/-- The n lowercase hex digits of `v`, most significant first (the
`for s := ...; s -= 4` loops of the source). -/
def hexDigits : Nat → Nat → List Char
  | 0, _ => []
  | k + 1, v => hexDigit ((v >>> (4 * k)) % 16) :: hexDigits k v

/-- The body of the per-rune loop of `writeEscapedForOutput`.  The
`!utf8.ValidRune(r)` arm of the source is unreachable here: ranging over a Go
string only ever yields valid runes, and `Char` carries the same invariant. -/
def escapeRune (escapeQuotes : Bool) (r : Char) : List Char :=
  if escapeQuotes && r == '"' then ['\\', '"']
  else if isPrint r then [r]
  else if r == '\x07' then ['\\', 'a']
  else if r == '\x08' then ['\\', 'b']
  else if r == '\x0C' then ['\\', 'f']
  else if r == '\n' then ['\\', 'n']
  else if r == '\r' then ['\\', 'r']
  else if r == '\t' then ['\\', 't']
  else if r == '\x0B' then ['\\', 'v']
  else if r.toNat < 0x20 then ['\\', 'x', hexDigit ((r.toNat >>> 4) % 16), hexDigit (r.toNat % 16)]
  else if r.toNat < 0x10000 then '\\' :: 'u' :: hexDigits 4 r.toNat
  else '\\' :: 'U' :: hexDigits 8 r.toNat

/-- Function writeEscapedForOutput from the source: emit the string unchanged when no
rune needs escaping, otherwise emit each rune's escape. -/
def writeEscapedForOutput (str : List Char) (escapeQuotes : Bool) : List Char :=
  if needsEscaping str = false then str
  else (str.map (escapeRune escapeQuotes)).flatten

/-- Function isNormal from the source: the rune may appear in an unquoted value;
the ASCII range `-` through `~`. -/
def isNormal (r : Char) : Bool :=
  '-' ≤ r && r ≤ '~'

/-- Function needsQuoting from the source: true iff some rune is not normal. -/
def needsQuoting (str : List Char) : Bool :=
  str.any (fun r => !isNormal r)

/-- The loop predicate shared by `writeIndent` and the split on newlines:
Go's `strings.IndexByte(str, '\n')` splits at the first rune failing this. -/
def notNl (c : Char) : Bool :=
  !(c == '\n')

/-- Function writeIndent from the source: repeatedly split at the first newline,
emitting `indent ++ escaped-segment ++ '\n'` for each segment before a
newline; a final segment is emitted only when non-empty. -/
def writeIndent (str indent : List Char) : List Char :=
  match h : str.dropWhile notNl with
  | [] =>
    if str = [] then []
    else indent ++ writeEscapedForOutput str false ++ ['\n']
  | _ :: rest =>
    indent ++ writeEscapedForOutput (str.takeWhile notNl) false ++ ['\n'] ++ writeIndent rest indent
termination_by str.length
decreasing_by
  have h1 : (str.dropWhile notNl).length ≤ str.length :=
    (List.dropWhile_sublist notNl).length_le
  rw [h] at h1
  simp only [List.length_cons] at h1
  omega

/-- Splitting a string on the newline character (every occurrence separates
two segments; `n` newlines yield `n + 1` segments). -/
def splitNl (s : List Char) : List (List Char) :=
  match h : s.dropWhile notNl with
  | [] => [s]
  | _ :: rest => s.takeWhile notNl :: splitNl rest
termination_by s.length
decreasing_by
  have h1 : (s.dropWhile notNl).length ≤ s.length :=
    (List.dropWhile_sublist notNl).length_le
  rw [h] at h1
  simp only [List.length_cons] at h1
  omega

/-- Drop a trailing empty segment (and only that one) from a segment list. -/
def dropTrailingEmpty : List (List Char) → List (List Char)
  | [] => []
  | [s] => if s = [] then [] else [s]
  | s :: rest => s :: dropTrailingEmpty rest

/-- Modelled from the spec: the severity levels, an ordered enumeration
Debug < Info < Warn < Error (the file declaring the Level constants is not
part of the rendered sources). -/
inductive Level : Type
  | debug
  | info
  | warn
  | error
deriving DecidableEq, Inhabited

/-- The numeric order of the levels underlying the Go comparisons. -/
def Level.num : Level → Nat
  | .debug => 0
  | .info => 1
  | .warn => 2
  | .error => 3

/-- Modelled from the spec: the canonical upper-case textual name of each
level, as produced by strings.ToUpper applied to the level's String method. -/
def levelName : Level → List Char
  | .debug => "DEBUG".toList
  | .info => "INFO".toList
  | .warn => "WARN".toList
  | .error => "ERROR".toList

/-- The output sink held in the logger's w field.  The discard constructor
stands for io.Discard, which the source compares against by identity. -/
inductive Sink : Type
  | stderr
  | discard
  | writer (id : Nat)
deriving DecidableEq, Inhabited

/-- The configuration fields of the logger struct that the rendering path
reads.  The formatted timestamp and the caller tag are supplied externally
per call (time source and runtime.Caller are external collaborators), so
timeFunc, timeFormat and callerOffset do not appear here.  Static keyvals are
kept in their fmt.Sprint string form. -/
structure LoggerCfg : Type where
  w : Sink
  level : Level
  prefixStr : List Char
  timestamp : Bool
  caller : Bool
  keyvals : List (List Char)
deriving DecidableEq, Inhabited

/-- The sentinel value appended when the keyval sequence has odd length. -/
def missingValueStr : List Char := "MISSING_VALUE".toList

/-- The sentinel substituted for an empty key. -/
def missingKeyStr : List Char := "MISSING_KEY".toList

/-- Empty-key substitution performed inside the pair loop of log. -/
def keySub (k : List Char) : List Char :=
  if k = [] then missingKeyStr else k

/-- The indent marker passed to writeIndent for multi-line values; the
separator style is the identity in no-color mode. -/
def indentMarker : List Char := "  │ ".toList

/-- The body of the pair loop of log: given one (key, value) pair in string
form, the bytes appended for it.  Mirrors the three branches of the source:
multi-line block when the value contains a newline, quoted when a non-raw
value needs quoting, verbatim otherwise; an empty value is replaced by the
raw two-character token and an empty key by MISSING_KEY. -/
def renderPair (kv : List Char × List Char) : List Char :=
  let raw := kv.2 = []
  let val := if raw then ['"', '"'] else kv.2
  let key := keySub kv.1
  if val.contains '\n' then
    '\n' :: ' ' :: ' ' :: (key ++ ['='] ++ ['\n'] ++ writeIndent val indentMarker ++ [' '])
  else if !raw && needsQuoting val then
    ' ' :: (key ++ ['=', '"'] ++ writeEscapedForOutput val true ++ ['"'])
  else
    ' ' :: (key ++ ['='] ++ val)

/-- Odd-length padding of the effective keyval sequence from log. -/
def padKeyvals (kvs : List (List Char)) : List (List Char) :=
  if kvs.length % 2 ≠ 0 then kvs ++ [missingValueStr] else kvs

/-- The pairing of the i, i+1 loop of log over the (already padded)
keyval sequence. -/
def pairUp : List (List Char) → List (List Char × List Char)
  | k :: v :: rest => (k, v) :: pairUp rest
  | _ => []

/-- The whole keyval section of a record: static attributes followed by the
call's extra keyvals, padded, paired, and each pair rendered. -/
def renderKeyvals (static extra : List (List Char)) : List Char :=
  ((pairUp (padKeyvals (static ++ extra))).map renderPair).flatten

/-- The full record assembled by log into the scratch buffer, in no-color
mode: optional timestamp, upper-cased level name, optional caller tag,
optional prefix, message, keyval section, trailing newline.  The formatted
timestamp ts and the caller tag (none when runtime.Caller fails) are inputs;
a nil message contributes nothing. -/
def renderRecord (cfg : LoggerCfg) (lvl : Level) (msg : Option (List Char))
    (extra : List (List Char)) (ts : List Char) (callerTag : Option (List Char)) : List Char :=
  (if cfg.timestamp then ts ++ [' '] else [])
  ++ levelName lvl ++ [' ']
  ++ (if cfg.caller then
        (match callerTag with
         | some c => c ++ [' ']
         | none => [])
      else [])
  ++ (if cfg.prefixStr ≠ [] then cfg.prefixStr ++ [':', ' '] else [])
  ++ (match msg with
      | some m => m
      | none => [])
  ++ renderKeyvals cfg.keyvals extra
  ++ ['\n']

/-- The observable effects of one call into the logging path: the sequence
of Write calls issued to the sink, how often the time source was invoked,
how many shared (read) lock acquisitions happened, whether the exclusive
(write) lock was taken, the scratch buffer contents after the call, and the
configuration after the call. -/
structure LogEffects : Type where
  writes : List (List Char)
  timeCalls : Nat
  rlocks : Nat
  wlockTaken : Bool
  bufAfter : List Char
  cfgAfter : LoggerCfg
deriving DecidableEq

/-- The log method.  Under the read lock it snapshots w and returns at once
when it is the discard sink — before calling the time source, before taking
the write lock, and without touching the buffer or the configuration.
Otherwise it calls the time source once, takes the write lock, assembles the
record into the scratch buffer (whose prior contents would prefix the write),
writes the buffer to the sink in a single Write call, and resets the buffer
on exit. -/
def logRun (cfg : LoggerCfg) (bufBefore : List Char) (lvl : Level)
    (msg : Option (List Char)) (extra : List (List Char)) (ts : List Char)
    (callerTag : Option (List Char)) : LogEffects :=
  if cfg.w = Sink.discard then
    { writes := []
      timeCalls := 0
      rlocks := 1
      wlockTaken := false
      bufAfter := bufBefore
      cfgAfter := cfg }
  else
    { writes := [bufBefore ++ renderRecord cfg lvl msg extra ts callerTag]
      timeCalls := 1
      rlocks := 1
      wlockTaken := true
      bufAfter := []
      cfgAfter := cfg }

/-- The shared gate of the four severity methods: read the configured level
under the read lock and return at once when it exceeds the call's level,
otherwise run log. -/
def severityCall (cfg : LoggerCfg) (bufBefore : List Char) (c : Level)
    (msg : Option (List Char)) (extra : List (List Char)) (ts : List Char)
    (callerTag : Option (List Char)) : LogEffects :=
  if c.num < cfg.level.num then
    { writes := []
      timeCalls := 0
      rlocks := 1
      wlockTaken := false
      bufAfter := bufBefore
      cfgAfter := cfg }
  else
    let e := logRun cfg bufBefore c msg extra ts callerTag
    { e with rlocks := e.rlocks + 1 }

/-- The Debug method of the logger. -/
def Debug (cfg : LoggerCfg) (bufBefore : List Char) (msg : Option (List Char))
    (extra : List (List Char)) (ts : List Char) (callerTag : Option (List Char)) : LogEffects :=
  severityCall cfg bufBefore Level.debug msg extra ts callerTag

/-- The Info method of the logger. -/
def Info (cfg : LoggerCfg) (bufBefore : List Char) (msg : Option (List Char))
    (extra : List (List Char)) (ts : List Char) (callerTag : Option (List Char)) : LogEffects :=
  severityCall cfg bufBefore Level.info msg extra ts callerTag

/-- The Warn method of the logger. -/
def Warn (cfg : LoggerCfg) (bufBefore : List Char) (msg : Option (List Char))
    (extra : List (List Char)) (ts : List Char) (callerTag : Option (List Char)) : LogEffects :=
  severityCall cfg bufBefore Level.warn msg extra ts callerTag

/-- The Error method of the logger. -/
def Error (cfg : LoggerCfg) (bufBefore : List Char) (msg : Option (List Char))
    (extra : List (List Char)) (ts : List Char) (callerTag : Option (List Char)) : LogEffects :=
  severityCall cfg bufBefore Level.error msg extra ts callerTag

/-- A heap of logger instances, used to state independence of a derived
logger from its parent: each position is one logger struct; distinct
positions share no mutable state (With copies the struct and allocates a
fresh mutex and a fresh scratch buffer). -/
abbrev LoggerHeap : Type := List LoggerCfg

/-- The With method: copy the logger at position i, append the new keyvals
to the copy's static attributes, and allocate the copy as a fresh instance;
returns the new heap and the fresh position. -/
def withAt (w : LoggerHeap) (i : Nat) (ks : List (List Char)) : LoggerHeap × Nat :=
  let parent := w.getD i default
  (w ++ [{ parent with keyvals := parent.keyvals ++ ks }], w.length)

/-- A configuration mutation (any setter) applied to the logger at
position i; positions out of range are untouched. -/
def mutateAt (w : LoggerHeap) (i : Nat) (f : LoggerCfg → LoggerCfg) : LoggerHeap :=
  match w.get? i with
  | some l => w.set i (f l)
  | none => w

/-- SetLevel as a heap mutation. -/
def setLevelAt (w : LoggerHeap) (i : Nat) (lvl : Level) : LoggerHeap :=
  mutateAt w i (fun c => { c with level := lvl })

/-- SetPrefix as a heap mutation. -/
def setPrefixAt (w : LoggerHeap) (i : Nat) (p : List Char) : LoggerHeap :=
  mutateAt w i (fun c => { c with prefixStr := p })

/-- The mutex- and mutation-relevant events a method performs, in program
order. -/
inductive MuEvent : Type
  | lockW
  | unlockW
  | lockR
  | unlockR
  | mutate
deriving DecidableEq

/-- Event trace of SetLevel: Lock, mutate l.level, deferred Unlock. -/
def setLevelEvents : List MuEvent := [.lockW, .mutate, .unlockW]

/-- Event trace of SetPrefix. -/
def setPrefixEvents : List MuEvent := [.lockW, .mutate, .unlockW]

/-- Event trace of SetOutput. -/
def setOutputEvents : List MuEvent := [.lockW, .mutate, .unlockW]

/-- Event trace of SetTimeFormat. -/
def setTimeFormatEvents : List MuEvent := [.lockW, .mutate, .unlockW]

/-- Event trace of SetTimeFunction. -/
def setTimeFunctionEvents : List MuEvent := [.lockW, .mutate, .unlockW]

/-- Event trace of EnableTimestamp. -/
def enableTimestampEvents : List MuEvent := [.lockW, .mutate, .unlockW]

/-- Event trace of DisableTimestamp, exactly as the source orders it: the
assignment l.timestamp = false is executed before l.mu.Lock(). -/
def disableTimestampEvents : List MuEvent := [.mutate, .lockW, .unlockW]

/-- Event trace of EnableCaller. -/
def enableCallerEvents : List MuEvent := [.lockW, .mutate, .unlockW]

/-- Event trace of DisableCaller. -/
def disableCallerEvents : List MuEvent := [.lockW, .mutate, .unlockW]

/-- Event trace of the log method: read-lock around the w snapshot, then
(unless the sink is the discard sink) the write lock around the buffer
mutations and the Write call. -/
def logEvents (discard : Bool) : List MuEvent :=
  if discard then [.lockR, .unlockR]
  else [.lockR, .unlockR, .lockW, .mutate, .mutate, .unlockW]

/-- Checks, scanning a trace with the current write-lock depth, that every
mutation happens while the write lock is held. -/
def mutUnderLockFrom : List MuEvent → Nat → Bool
  | [], _ => true
  | .lockW :: es, d => mutUnderLockFrom es (d + 1)
  | .unlockW :: es, d => mutUnderLockFrom es (d - 1)
  | .mutate :: es, d => decide (0 < d) && mutUnderLockFrom es d
  | .lockR :: es, d => mutUnderLockFrom es d
  | .unlockR :: es, d => mutUnderLockFrom es d

/-- Every mutation in the trace happens under the exclusive lock. -/
def mutationsUnderWriteLock (tr : List MuEvent) : Bool :=
  mutUnderLockFrom tr 0

/-- Configuration used by the concrete witnesses: an ordinary sink, Info
threshold, no timestamp, no caller, no prefix, no static attributes. -/
def exampleCfg : LoggerCfg :=
  { w := Sink.stderr, level := Level.info, prefixStr := [], timestamp := false,
    caller := false, keyvals := [] }

/-- Configuration whose sink is the discard sink. -/
def discardCfg : LoggerCfg :=
  { exampleCfg with w := Sink.discard }

theorem escapeRune_of_isPrint (q : Bool) (c : Char) (hp : isPrint c = true)
    (hq : q = false ∨ c ≠ '"') : escapeRune q c = [c] := by
  have hc : (q && c == '"') = false := by
    rcases hq with h | h
    · simp [h]
    · simp [h]
  unfold escapeRune
  simp [hc, hp]

theorem flatten_map_id_of (s : List Char) (f : Char → List Char)
    (h : ∀ c ∈ s, f c = [c]) : (s.map f).flatten = s := by
  induction s with
  | nil => rfl
  | cons c t ih =>
    simp only [List.map_cons, List.flatten_cons]
    rw [h c (by simp), ih (fun x hx => h x (by simp [hx]))]
    rfl

theorem writeEscaped_eq_flatten (s : List Char) (q : Bool) :
    writeEscapedForOutput s q = (s.map (escapeRune q)).flatten := by
  unfold writeEscapedForOutput
  by_cases hne : needsEscaping s = false
  · rw [if_pos hne]
    symm
    apply flatten_map_id_of
    intro c hc
    have h2 : ∀ x ∈ s, ¬(!isPrint x || x == '"') = true := by
      simpa [needsEscaping] using hne
    have h3 := h2 c hc
    simp only [Bool.or_eq_true, Bool.not_eq_true', beq_iff_eq, not_or,
      Bool.not_eq_true, Bool.not_eq_false] at h3
    exact escapeRune_of_isPrint q c h3.1 (Or.inr h3.2)
  · rw [if_neg hne]


theorem splitNl_ne_nil (s : List Char) : splitNl s ≠ [] := by
  unfold splitNl
  split <;> simp

theorem dropTrailingEmpty_cons (a : List Char) (l : List (List Char)) (hl : l ≠ []) :
    dropTrailingEmpty (a :: l) = a :: dropTrailingEmpty l := by
  cases l with
  | nil => exact absurd rfl hl
  | cons b t => rfl

theorem writeIndent_eq (s ind : List Char) :
    writeIndent s ind =
      ((dropTrailingEmpty (splitNl s)).map
        (fun seg => ind ++ writeEscapedForOutput seg false ++ ['\n'])).flatten := by
  induction s, ind using writeIndent.induct with
  | case1 a b =>
    rw [writeIndent.eq_def, splitNl.eq_def]
    simp [dropTrailingEmpty]
  | case2 a b hdw hne =>
    rw [writeIndent.eq_def, splitNl.eq_def]
    split
    · split
      · rename_i heq2
        exact absurd heq2 hne
      · simp [dropTrailingEmpty, hne]
    · rename_i x rest heq
      rw [hdw] at heq
      cases heq
  | case3 a b c d hdw ih =>
    rw [writeIndent.eq_def, splitNl.eq_def]
    split
    · rename_i heq
      rw [hdw] at heq
      cases heq
    · rename_i x rest heq
      rw [hdw] at heq
      injection heq with h1 h2
      subst h2
      rw [dropTrailingEmpty_cons _ _ (splitNl_ne_nil d)]
      simp only [List.map_cons, List.flatten_cons]
      rw [ih]

theorem hexDigit_ne_nl (n : Nat) : hexDigit n ≠ '\n' := by
  unfold hexDigit
  by_cases h : n < 16
  · interval_cases n <;> decide
  · have hlen : ("0123456789abcdef".toList).length = 16 := rfl
    rw [List.getD_eq_default]
    · decide
    · omega

theorem nl_not_mem_hexDigits (k v : Nat) : '\n' ∉ hexDigits k v := by
  induction k generalizing v with
  | zero => simp [hexDigits]
  | succ k ih =>
    simp only [hexDigits, List.mem_cons, not_or]
    exact ⟨Ne.symm (hexDigit_ne_nl _), ih v⟩

theorem nl_not_mem_escapeRune (q : Bool) (c : Char) (hc : c ≠ '\n') :
    '\n' ∉ escapeRune q c := by
  unfold escapeRune
  by_cases h1 : (q && c == '"') = true
  · rw [if_pos h1]
    decide
  rw [if_neg h1]
  by_cases h2 : isPrint c = true
  · rw [if_pos h2]
    intro hm
    rw [List.mem_singleton] at hm
    exact hc hm.symm
  rw [if_neg h2]
  by_cases h3 : (c == '\x07') = true
  · rw [if_pos h3]
    decide
  rw [if_neg h3]
  by_cases h4 : (c == '\x08') = true
  · rw [if_pos h4]
    decide
  rw [if_neg h4]
  by_cases h5 : (c == '\x0C') = true
  · rw [if_pos h5]
    decide
  rw [if_neg h5]
  by_cases h6 : (c == '\n') = true
  · rw [if_pos h6]
    decide
  rw [if_neg h6]
  by_cases h7 : (c == '\r') = true
  · rw [if_pos h7]
    decide
  rw [if_neg h7]
  by_cases h8 : (c == '\t') = true
  · rw [if_pos h8]
    decide
  rw [if_neg h8]
  by_cases h9 : (c == '\x0B') = true
  · rw [if_pos h9]
    decide
  rw [if_neg h9]
  by_cases h10 : c.toNat < 0x20
  · rw [if_pos h10]
    intro hm
    simp only [List.mem_cons, List.not_mem_nil, or_false] at hm
    rcases hm with hm | hm | hm | hm
    · exact absurd hm (by decide)
    · exact absurd hm (by decide)
    · exact (hexDigit_ne_nl _) hm.symm
    · exact (hexDigit_ne_nl _) hm.symm
  rw [if_neg h10]
  by_cases h11 : c.toNat < 0x10000
  · rw [if_pos h11]
    intro hm
    simp only [List.mem_cons] at hm
    rcases hm with hm | hm | hm
    · exact absurd hm (by decide)
    · exact absurd hm (by decide)
    · exact (nl_not_mem_hexDigits _ _) hm
  rw [if_neg h11]
  intro hm
  simp only [List.mem_cons] at hm
  rcases hm with hm | hm | hm
  · exact absurd hm (by decide)
  · exact absurd hm (by decide)
  · exact (nl_not_mem_hexDigits _ _) hm

theorem sum_map_ones {α : Type} (l : List α) (f : α → Nat)
    (h : ∀ x ∈ l, f x = 1) : (l.map f).sum = l.length := by
  induction l with
  | nil => rfl
  | cons a t ih =>
    simp only [List.map_cons, List.sum_cons, List.length_cons,
      h a (by simp), ih (fun x hx => h x (by simp [hx]))]
    omega

theorem count_nl_writeEscaped (seg : List Char) (h : ∀ c ∈ seg, c ≠ '\n') :
    (writeEscapedForOutput seg false).count '\n' = 0 := by
  rw [writeEscaped_eq_flatten, List.count_flatten, List.map_map]
  apply List.sum_eq_zero
  intro x hx
  simp only [List.mem_map] at hx
  obtain ⟨c, hc, hfx⟩ := hx
  subst hfx
  exact List.count_eq_zero.mpr (nl_not_mem_escapeRune false c (h c hc))

theorem mem_splitNl_no_nl (s : List Char) :
    ∀ seg ∈ splitNl s, ∀ c ∈ seg, c ≠ '\n' := by
  induction s using splitNl.induct with
  | case1 a hdw =>
    intro seg hseg c hc
    rw [splitNl.eq_def] at hseg
    split at hseg
    · rename_i heq
      simp only [List.mem_singleton] at hseg
      subst hseg
      have := List.dropWhile_eq_nil_iff.mp heq c hc
      simpa [notNl] using this
    · rename_i x rest heq
      rw [hdw] at heq
      cases heq
  | case2 a x rest hdw ih =>
    intro seg hseg c hc
    rw [splitNl.eq_def] at hseg
    split at hseg
    · rename_i heq
      rw [hdw] at heq
      cases heq
    · rename_i y rest2 heq
      rw [hdw] at heq
      injection heq with h1 h2
      subst h2
      simp only [List.mem_cons] at hseg
      rcases hseg with hseg | hseg
      · subst hseg
        have := List.mem_takeWhile_imp hc
        simpa [notNl] using this
      · exact ih seg hseg c hc

theorem mem_dropTrailingEmpty (l : List (List Char)) (x : List Char)
    (hx : x ∈ dropTrailingEmpty l) : x ∈ l := by
  induction l with
  | nil => simpa [dropTrailingEmpty] using hx
  | cons a t ih =>
    cases t with
    | nil =>
      unfold dropTrailingEmpty at hx
      split at hx <;> simp_all
    | cons b t2 =>
      rw [dropTrailingEmpty_cons _ _ (by simp)] at hx
      simp only [List.mem_cons] at hx ⊢
      rcases hx with hx | hx
      · exact Or.inl hx
      · have h2 := ih hx
        simp only [List.mem_cons] at h2
        exact Or.inr h2

theorem count_nl_writeIndent (s : List Char) :
    (writeIndent s indentMarker).count '\n' = (dropTrailingEmpty (splitNl s)).length := by
  rw [writeIndent_eq, List.count_flatten, List.map_map]
  apply sum_map_ones
  intro seg hseg
  simp only [Function.comp_apply, List.count_append]
  have h0 : (indentMarker.count '\n') = 0 := by decide
  have h1 : (writeEscapedForOutput seg false).count '\n' = 0 :=
    count_nl_writeEscaped seg
      (mem_splitNl_no_nl s seg (mem_dropTrailingEmpty _ _ hseg))
  have h2 : (['\n'].count '\n') = 1 := by decide
  omega

theorem renderPair_block (key val : List Char) (h : val.contains '\n' = true) :
    renderPair (key, val) =
      '\n' :: ' ' :: ' ' ::
        (keySub key ++ ['='] ++ ['\n'] ++ writeIndent val indentMarker ++ [' ']) := by
  have hmem : '\n' ∈ val := by simpa using h
  have hne : val ≠ [] := by
    intro h0
    subst h0
    simp at hmem
  simp [renderPair, hne, hmem]

theorem renderPair_quoted (key val : List Char) (hnl : val.contains '\n' = false)
    (hnq : needsQuoting val = true) (hne : val ≠ []) :
    renderPair (key, val) =
      ' ' :: (keySub key ++ ['=', '"'] ++ writeEscapedForOutput val true ++ ['"']) := by
  have hnm : '\n' ∉ val := by simpa using hnl
  simp [renderPair, hne, hnm, hnq]

theorem renderPair_plain (key val : List Char) (hnl : val.contains '\n' = false)
    (hnq : needsQuoting val = false) (hne : val ≠ []) :
    renderPair (key, val) = ' ' :: (keySub key ++ ['='] ++ val) := by
  have hnm : '\n' ∉ val := by simpa using hnl
  simp [renderPair, hne, hnm, hnq]

theorem renderPair_raw (key : List Char) :
    renderPair (key, []) = ' ' :: (keySub key ++ ['=', '"', '"']) := by
  simp [renderPair]

/-- C4: escaping with writeEscapedForOutput maps each rune of the input, in
position and in order, to its escape: the seven standard control characters
bell, backspace, form-feed, newline, carriage-return, tab and vertical-tab
become the named sequences \a \b \f \n \r \t \v, and every printable rune is
emitted verbatim. -/
theorem C4_escape_controls (s : List Char) :
    writeEscapedForOutput s false = (s.map (escapeRune false)).flatten ∧
    escapeRune false '\x07' = ['\\', 'a'] ∧
    escapeRune false '\x08' = ['\\', 'b'] ∧
    escapeRune false '\x0C' = ['\\', 'f'] ∧
    escapeRune false '\n' = ['\\', 'n'] ∧
    escapeRune false '\r' = ['\\', 'r'] ∧
    escapeRune false '\t' = ['\\', 't'] ∧
    escapeRune false '\x0B' = ['\\', 'v'] ∧
    (∀ c : Char, isPrint c = true → escapeRune false c = [c]) := by
  refine ⟨writeEscaped_eq_flatten s false, by decide, by decide, by decide,
    by decide, by decide, by decide, by decide, ?_⟩
  intro c hc
  exact escapeRune_of_isPrint false c hc (Or.inl rfl)

/-- Witness for C4 at the string x\a\b\f\n\r\t\vy and the printable rune x. -/
theorem C4_escape_controls_witness :
    writeEscapedForOutput ("x\x07\x08\x0C\n\r\t\x0By".toList) false =
      (("x\x07\x08\x0C\n\r\t\x0By".toList).map (escapeRune false)).flatten ∧
    isPrint 'x' = true ∧ escapeRune false 'x' = ['x'] :=
  ⟨(C4_escape_controls ("x\x07\x08\x0C\n\r\t\x0By".toList)).1, by decide,
    (C4_escape_controls []).2.2.2.2.2.2.2.2 'x' (by decide)⟩

/-- C2: a value containing a newline is always rendered as the multi-line
indented block (never as an inline quoted or unquoted token), and the number
of indented output lines equals the number of segments of the value split on
newline, a trailing empty segment not counted. -/
theorem C2_multiline_block (key val : List Char) (h : val.contains '\n' = true) :
    renderPair (key, val) =
      '\n' :: ' ' :: ' ' ::
        (keySub key ++ ['='] ++ ['\n'] ++ writeIndent val indentMarker ++ [' ']) ∧
    (writeIndent val indentMarker).count '\n' = (dropTrailingEmpty (splitNl val)).length :=
  ⟨renderPair_block key val h, count_nl_writeIndent val⟩

/-- Witness for C2 at key lines and value a-newline-b. -/
theorem C2_multiline_block_witness :
    ("a\nb".toList.contains '\n' = true) ∧
    (renderPair ("lines".toList, "a\nb".toList) =
      '\n' :: ' ' :: ' ' ::
        (keySub "lines".toList ++ ['='] ++ ['\n'] ++
          writeIndent "a\nb".toList indentMarker ++ [' ']) ∧
    (writeIndent "a\nb".toList indentMarker).count '\n' =
      (dropTrailingEmpty (splitNl "a\nb".toList)).length) :=
  ⟨by decide, C2_multiline_block "lines".toList "a\nb".toList (by decide)⟩

/-- C9: the indented block is exactly one output line per non-trailing
segment of the split on newline, each line being the indent marker, the
escaped segment and a newline; an empty segment contributes nothing between
its indent marker and its newline, and a trailing empty segment contributes
no line at all. -/
theorem C9_indent_lines (s ind : List Char) :
    writeIndent s ind =
      ((dropTrailingEmpty (splitNl s)).map
        (fun seg => ind ++ writeEscapedForOutput seg false ++ ['\n'])).flatten ∧
    writeEscapedForOutput [] false = [] ∧
    ind ++ writeEscapedForOutput [] false ++ ['\n'] = ind ++ ['\n'] := by
  refine ⟨writeIndent_eq s ind, rfl, by simp [writeEscapedForOutput, needsEscaping]⟩

/-- C1 as frozen is false: for a value that contains a space (or a quote)
and also a newline, needsQuoting does return true, but the rendered segment
is the multi-line block, not a double-quoted token. -/
theorem C1_counterexample :
    needsQuoting ("a b\nc".toList) = true ∧
    renderPair ("k".toList, "a b\nc".toList) ≠
      ' ' :: (keySub "k".toList ++ ['=', '"'] ++
        writeEscapedForOutput ("a b\nc".toList) true ++ ['"']) := by
  constructor
  · decide
  · rw [renderPair_block "k".toList "a b\nc".toList (by decide)]
    simp

/-- C1 amended: for every value containing a double quote or a space and no
newline, needsQuoting returns true and the rendered segment is the value
wrapped in double quotes, each rune escaped with quote-escaping on, under
which every double quote becomes backslash-quote. -/
theorem C1_quoting (key val : List Char)
    (hqs : val.contains '"' = true ∨ val.contains ' ' = true)
    (hnl : val.contains '\n' = false) :
    needsQuoting val = true ∧
    renderPair (key, val) =
      ' ' :: (keySub key ++ ['=', '"'] ++ (val.map (escapeRune true)).flatten ++ ['"']) ∧
    escapeRune true '"' = ['\\', '"'] := by
  have hmem : ('"' ∈ val) ∨ (' ' ∈ val) := by
    rcases hqs with h | h
    · exact Or.inl (by simpa using h)
    · exact Or.inr (by simpa using h)
  have hnq : needsQuoting val = true := by
    rcases hmem with h | h
    · exact List.any_eq_true.mpr ⟨'"', h, by decide⟩
    · exact List.any_eq_true.mpr ⟨' ', h, by decide⟩
  have hne : val ≠ [] := by
    intro h0
    subst h0
    rcases hmem with h | h <;> simp at h
  refine ⟨hnq, ?_, by decide⟩
  rw [renderPair_quoted key val hnl hnq hne, writeEscaped_eq_flatten]

/-- Witness for the amended C1 at key k and value a-space-b. -/
theorem C1_quoting_witness :
    needsQuoting "a b".toList = true ∧
    renderPair ("k".toList, "a b".toList) =
      ' ' :: (keySub "k".toList ++ ['=', '"'] ++
        ("a b".toList.map (escapeRune true)).flatten ++ ['"']) ∧
    escapeRune true '"' = ['\\', '"'] :=
  C1_quoting "k".toList "a b".toList (Or.inr (by decide)) (by decide)

/-- C7 as frozen is false for the empty value: needsQuoting of the empty
string is false, but the empty value is rendered as the literal two-quote
token, not verbatim (which would end the segment after the equals sign). -/
theorem C7_counterexample :
    needsQuoting ([] : List Char) = false ∧
    renderPair ("k".toList, ([] : List Char)) = ' ' :: ("k".toList ++ ['=', '"', '"']) ∧
    renderPair ("k".toList, ([] : List Char)) ≠ ' ' :: ("k".toList ++ ['=']) := by
  refine ⟨by decide, ?_, ?_⟩
  · rw [renderPair_raw "k".toList]
    decide
  · rw [renderPair_raw "k".toList]
    decide

/-- C7 amended: a non-empty value whose runes all lie in the ASCII range
hyphen through tilde has needsQuoting false and is rendered verbatim,
unquoted and unescaped; the empty value also has needsQuoting false but is
rendered as the literal two-quote token. -/
theorem C7_normal_verbatim (key val : List Char)
    (h : ∀ c ∈ val, isNormal c = true) :
    needsQuoting val = false ∧
    (val ≠ [] → renderPair (key, val) = ' ' :: (keySub key ++ ['='] ++ val)) ∧
    (val = [] → renderPair (key, val) = ' ' :: (keySub key ++ ['=', '"', '"'])) := by
  have hnq : needsQuoting val = false := by
    apply List.any_eq_false.mpr
    intro c hc
    simp [h c hc]
  refine ⟨hnq, ?_, ?_⟩
  · intro hne
    have hnl : val.contains '\n' = false := by
      have : '\n' ∉ val := by
        intro hmem
        have := h '\n' hmem
        simp [isNormal] at this
      simpa using this
    exact renderPair_plain key val hnl hnq hne
  · intro h0
    subst h0
    exact renderPair_raw key

/-- Witness for the amended C7 at key k and value abc. -/
theorem C7_normal_verbatim_witness :
    needsQuoting "abc".toList = false ∧
    ("abc".toList ≠ [] →
      renderPair ("k".toList, "abc".toList) =
        ' ' :: (keySub "k".toList ++ ['='] ++ "abc".toList)) ∧
    ("abc".toList = [] →
      renderPair ("k".toList, "abc".toList) =
        ' ' :: (keySub "k".toList ++ ['=', '"', '"'])) :=
  C7_normal_verbatim "k".toList "abc".toList (by decide)

/-- C3: each severity method is the generic gate at its level; a call below
the configured threshold writes nothing, and a call at or above it, on a
non-discard sink and with the scratch buffer empty as every call leaves it,
writes exactly one record in a single write, and that record ends in a
newline. -/
theorem C3_level_gate (cfg : LoggerCfg) (buf : List Char) (c : Level)
    (msg : Option (List Char)) (extra : List (List Char)) (ts : List Char)
    (cal : Option (List Char)) :
    Debug cfg buf msg extra ts cal = severityCall cfg buf Level.debug msg extra ts cal ∧
    Info cfg buf msg extra ts cal = severityCall cfg buf Level.info msg extra ts cal ∧
    Warn cfg buf msg extra ts cal = severityCall cfg buf Level.warn msg extra ts cal ∧
    Error cfg buf msg extra ts cal = severityCall cfg buf Level.error msg extra ts cal ∧
    (c.num < cfg.level.num → (severityCall cfg buf c msg extra ts cal).writes = []) ∧
    (cfg.level.num ≤ c.num → cfg.w ≠ Sink.discard → buf = [] →
      (severityCall cfg buf c msg extra ts cal).writes =
        [renderRecord cfg c msg extra ts cal] ∧
      ∃ body : List Char,
        renderRecord cfg c msg extra ts cal = body ++ ['\n']) := by
  refine ⟨rfl, rfl, rfl, rfl, ?_, ?_⟩
  · intro hlt
    simp [severityCall, hlt]
  · intro hge hw hbuf
    subst hbuf
    have hnlt : ¬c.num < cfg.level.num := by omega
    constructor
    · simp [severityCall, hnlt, logRun, hw]
    · exact ⟨_, rfl⟩

/-- Witness for C3 on the example configuration: a Debug call under the Info
threshold writes nothing; an Info call writes the one record. -/
theorem C3_level_gate_witness :
    (severityCall exampleCfg [] Level.debug (some "m".toList) [] [] none).writes = [] ∧
    (severityCall exampleCfg [] Level.info (some "m".toList) [] [] none).writes =
      [renderRecord exampleCfg Level.info (some "m".toList) [] [] none] :=
  ⟨(C3_level_gate exampleCfg [] Level.debug (some "m".toList) [] [] none).2.2.2.2.1
      (by decide),
    ((C3_level_gate exampleCfg [] Level.info (some "m".toList) [] [] none).2.2.2.2.2
      (by decide) (by decide) rfl).1⟩

/-- C5: the effective keyval sequence of a call is the configured static
attributes followed by the call's extra keyvals, in order; exactly one
synthetic MISSING_VALUE is appended as the final value when that combined
length is odd, and nothing is appended when it is even; pairing then takes
consecutive entries in order.  On the example configuration, the spec's
odd-arity scenario renders onlykey=MISSING_VALUE. -/
theorem C5_missing_value (static extra : List (List Char)) :
    renderKeyvals static extra =
      ((pairUp ((static ++ extra) ++
        (if (static ++ extra).length % 2 = 1 then [missingValueStr] else []))).map
          renderPair).flatten ∧
    (padKeyvals (static ++ extra)).length % 2 = 0 ∧
    (∀ k v rest, pairUp (k :: v :: rest) = (k, v) :: pairUp rest) ∧
    renderRecord exampleCfg Level.info (some "x".toList) ["onlykey".toList] [] none =
      "INFO x onlykey=MISSING_VALUE\n".toList := by
  refine ⟨?_, ?_, fun k v rest => rfl, by decide⟩
  · unfold renderKeyvals padKeyvals
    by_cases h : (static ++ extra).length % 2 = 1
    · rw [if_pos (by omega), if_pos h]
    · rw [if_neg (by omega), if_neg h, List.append_nil]
  · unfold padKeyvals
    simp only [List.length_append]
    by_cases h : (static.length + extra.length) % 2 = 0
    · rw [if_neg (by omega)]
      simp only [List.length_append]
      omega
    · rw [if_pos (by omega)]
      simp only [List.length_append, List.length_cons, List.length_nil]
      omega

/-- C6: With copies the parent at position i into a fresh instance whose
static attributes are the parent's followed by the new ones in order; the
fresh position differs from the parent's, and any configuration mutation
applied at one of the two positions leaves the logger at the other position
unchanged. -/
theorem C6_with_independence (w : LoggerHeap) (i : Nat) (ks : List (List Char))
    (f : LoggerCfg → LoggerCfg) (hi : i < w.length) :
    ((withAt w i ks).1.getD (withAt w i ks).2 default).keyvals =
      (w.getD i default).keyvals ++ ks ∧
    (withAt w i ks).2 ≠ i ∧
    (mutateAt (withAt w i ks).1 (withAt w i ks).2 f).getD i default =
      (withAt w i ks).1.getD i default ∧
    (mutateAt (withAt w i ks).1 i f).getD (withAt w i ks).2 default =
      (withAt w i ks).1.getD (withAt w i ks).2 default := by
  refine ⟨?_, by simp only [withAt]; omega, ?_, ?_⟩
  · simp [withAt, List.getD_eq_getElem?_getD, List.getElem?_concat_length]
  · unfold mutateAt
    cases hget : (withAt w i ks).1.get? (withAt w i ks).2 with
    | none => rfl
    | some l =>
      simp only [List.getD_eq_getElem?_getD]
      rw [List.getElem?_set_ne (by simp [withAt]; omega)]
  · unfold mutateAt
    cases hget : (withAt w i ks).1.get? i with
    | none => rfl
    | some l =>
      simp only [List.getD_eq_getElem?_getD]
      rw [List.getElem?_set_ne (by simp [withAt]; omega)]

/-- Witness for C6 on a one-logger heap. -/
theorem C6_with_independence_witness :
    ((withAt [exampleCfg] 0 ["k".toList, "v".toList]).1.getD
        (withAt [exampleCfg] 0 ["k".toList, "v".toList]).2 default).keyvals =
      ([exampleCfg].getD 0 default).keyvals ++ ["k".toList, "v".toList] ∧
    (withAt [exampleCfg] 0 ["k".toList, "v".toList]).2 ≠ 0 ∧
    (mutateAt (withAt [exampleCfg] 0 ["k".toList, "v".toList]).1
        (withAt [exampleCfg] 0 ["k".toList, "v".toList]).2
        (fun c => { c with level := Level.error })).getD 0 default =
      (withAt [exampleCfg] 0 ["k".toList, "v".toList]).1.getD 0 default ∧
    (mutateAt (withAt [exampleCfg] 0 ["k".toList, "v".toList]).1 0
        (fun c => { c with level := Level.error })).getD
        (withAt [exampleCfg] 0 ["k".toList, "v".toList]).2 default =
      (withAt [exampleCfg] 0 ["k".toList, "v".toList]).1.getD
        (withAt [exampleCfg] 0 ["k".toList, "v".toList]).2 default :=
  C6_with_independence [exampleCfg] 0 ["k".toList, "v".toList]
    (fun c => { c with level := Level.error }) (by decide)

/-- C8: the claim that every setter mutates only while holding the write
lock is contradicted by DisableTimestamp, whose assignment precedes its
Lock call; every other setter, and the record-formatting path of log,
does mutate only under the write lock. -/
theorem C8_locking :
    mutationsUnderWriteLock disableTimestampEvents = false ∧
    mutationsUnderWriteLock setLevelEvents = true ∧
    mutationsUnderWriteLock setPrefixEvents = true ∧
    mutationsUnderWriteLock setOutputEvents = true ∧
    mutationsUnderWriteLock setTimeFormatEvents = true ∧
    mutationsUnderWriteLock setTimeFunctionEvents = true ∧
    mutationsUnderWriteLock enableTimestampEvents = true ∧
    mutationsUnderWriteLock enableCallerEvents = true ∧
    mutationsUnderWriteLock disableCallerEvents = true ∧
    mutationsUnderWriteLock (logEvents false) = true ∧
    mutationsUnderWriteLock (logEvents true) = true := by
  decide

/-- C10: with the discard sink configured and the call's level enabled, the
logging call returns having written nothing, never having called the time
source, never having taken the exclusive lock, and leaving both the scratch
buffer and the configuration exactly as they were (only the two read-lock
acquisitions happen). -/
theorem C10_discard_early_return (cfg : LoggerCfg) (buf : List Char) (c : Level)
    (msg : Option (List Char)) (extra : List (List Char)) (ts : List Char)
    (cal : Option (List Char)) (hw : cfg.w = Sink.discard)
    (hlv : cfg.level.num ≤ c.num) :
    severityCall cfg buf c msg extra ts cal =
      { writes := [], timeCalls := 0, rlocks := 2, wlockTaken := false,
        bufAfter := buf, cfgAfter := cfg } := by
  have hnlt : ¬c.num < cfg.level.num := by omega
  simp [severityCall, hnlt, logRun, hw]

/-- Witness for C10 on the discard configuration at Info level. -/
theorem C10_discard_early_return_witness :
    severityCall discardCfg ['z'] Level.info (some "m".toList) [] [] none =
      { writes := [], timeCalls := 0, rlocks := 2, wlockTaken := false,
        bufAfter := ['z'], cfgAfter := discardCfg } :=
  C10_discard_early_return discardCfg ['z'] Level.info (some "m".toList) [] [] none
    (by decide) (by decide)

end GoLog
